import Mathlib

/-!
Verification of the telecom-IP extraction pipeline.

Shallow embedding of the extraction / validation / curation logic of
`main.py` (class `TelecomIPUpdater`) and `fetch_ip.py` (`fetch_telecom_ips`).
Text is modelled as `List Char` (Python `str`); the parsed HTML document is
modelled as the data the code reads off the BeautifulSoup tree: the table
rows with their cell texts, the `li`/`div`/`p` item texts, and the full
document text (`soup.get_text()`).
-/

set_option maxRecDepth 8000

/-- Convert a Lean string literal to the `List Char` representation used by
the model. -/
def lc (s : String) : List Char := s.data

/-- Python `str.split('.')`: split on every dot, keeping empty pieces; the
empty string splits to `[""]`. -/
def splitOnDot : List Char → List (List Char)
  | [] => [[]]
  | ch :: cs =>
    match splitOnDot cs with
    | [] => [[]]
    | p :: ps => if ch = '.' then [] :: p :: ps else (ch :: p) :: ps

/-- Python `str.isdigit()` restricted to ASCII digits: nonempty and all
characters are decimal digits. -/
def pyIsDigit (s : List Char) : Bool :=
  !s.isEmpty && s.all Char.isDigit

/-- Python `int(...)` on a decimal digit string. -/
def digitsToNat (s : List Char) : Nat :=
  s.foldl (fun n ch => 10 * n + (ch.toNat - 48)) 0

/-- Python `str.lower()` restricted to ASCII letters (non-ASCII characters,
such as the CJK keyword characters, are unchanged, as in Python). -/
def lowerStr (s : List Char) : List Char := s.map Char.toLower

/-- `TelecomIPUpdater.is_valid_ip` (main.py lines 275-288): exactly four
dot-separated parts, each a digit string with `0 <= int(part) <= 255`; then
the literal-prefix exclusions `'0.'`, `'127.'`, `'169.254.'` and the exact
string `'255.255.255.255'`. -/
def is_valid_ip (ip : List Char) : Bool :=
  let parts := splitOnDot ip
  if parts.length = 4 then
    if parts.all (fun part => pyIsDigit part && decide (digitsToNat part ≤ 255)) then
      if (lc "0.").isPrefixOf ip || (lc "127.").isPrefixOf ip ||
          (lc "169.254.").isPrefixOf ip then false
      else if ip = lc "255.255.255.255" then false
      else true
    else false
  else false

/-! ## The IPv4 token regex

Model of the pattern `\b(?:[0-9]{1,3}\.){3}[0-9]{1,3}\b` under Python `re`
semantics (leftmost match, greedy `{1,3}` with backtracking).  For this
pattern backtracking collapses to: each of the first three groups is a
maximal digit run of length 1-3 followed by a literal dot, and the last
group is a maximal digit run of length 1-3 followed by a non-word character
or the end of the text.  Word characters are modelled as ASCII
alphanumerics and underscore. -/

/-- ASCII model of the regex word-character class `\w`. -/
def isWordChar (ch : Char) : Bool := ch.isAlphanum || ch = '_'

/-- Maximal run of leading digits, together with the rest of the text. -/
def digitRun : List Char → List Char × List Char
  | [] => ([], [])
  | ch :: cs =>
    if ch.isDigit then
      let p := digitRun cs
      (ch :: p.1, p.2)
    else ([], ch :: cs)

/-- Match `[0-9]{1,3}\.` at the head of the text. -/
def matchGroupDot (cs : List Char) : Option (List Char × List Char) :=
  let p := digitRun cs
  if 1 ≤ p.1.length ∧ p.1.length ≤ 3 then
    match p.2 with
    | '.' :: rest => some (p.1 ++ ['.'], rest)
    | _ => none
  else none

/-- Match the final `[0-9]{1,3}\b` at the head of the text. -/
def matchLastGroup (cs : List Char) : Option (List Char × List Char) :=
  let p := digitRun cs
  if 1 ≤ p.1.length ∧ p.1.length ≤ 3 then
    match p.2 with
    | [] => some (p.1, [])
    | ch :: rest => if isWordChar ch then none else some (p.1, ch :: rest)
  else none

/-- Match the whole IPv4 pattern at the head of the text, returning the
matched token and the remaining text. -/
def matchIPAt (cs : List Char) : Option (List Char × List Char) :=
  match matchGroupDot cs with
  | none => none
  | some g1 =>
    match matchGroupDot g1.2 with
    | none => none
    | some g2 =>
      match matchGroupDot g2.2 with
      | none => none
      | some g3 =>
        match matchLastGroup g3.2 with
        | none => none
        | some g4 => some (g1.1 ++ g2.1 ++ g3.1 ++ g4.1, g4.2)

/-- Scan for all non-overlapping matches, left to right, as `re.findall`.
The Boolean argument records whether the current position has a word
boundary on its left (start of text, or previous character non-word); a
match can only start there because its first character is a digit.  The
fuel argument makes the recursion structural; every step either consumes
one character or a whole match (at least seven characters), so the initial
fuel `length + 1` is never exhausted before the text is. -/
def findAllIPsAux : Nat → Bool → List Char → List (List Char)
  | 0, _, _ => []
  | _ + 1, _, [] => []
  | fuel + 1, atBoundary, ch :: cs =>
    if atBoundary then
      match matchIPAt (ch :: cs) with
      | some m => m.1 :: findAllIPsAux fuel false m.2
      | none => findAllIPsAux fuel (!isWordChar ch) cs
    else findAllIPsAux fuel (!isWordChar ch) cs

/-- `re.findall(r'\b(?:[0-9]{1,3}\.){3}[0-9]{1,3}\b', text)`. -/
def findAllIPs (atBoundary : Bool) (text : List Char) : List (List Char) :=
  findAllIPsAux (text.length + 1) atBoundary text

/-- `re.search` for the same pattern: the leftmost match, if any. -/
def searchIP (text : List Char) : Option (List Char) :=
  (findAllIPs true text).head?

/-- `TelecomIPUpdater.extract_ip` (main.py lines 268-273): the first
IPv4-looking token of the text, returned only when it passes
`is_valid_ip`. -/
def extract_ip (text : List Char) : Option (List Char) :=
  match searchIP text with
  | some m => if is_valid_ip m then some m else none
  | none => none

/-! ## The parsed document and the extraction pipeline (main.py) -/

/-- The data `parse_telecom_ips` reads from the BeautifulSoup tree:
`tables` is the list of tables, each a list of rows, each a list of
stripped cell texts (`td`/`th`); `items` is the list of stripped texts of
the `li`/`div`/`p` elements; `allText` is `soup.get_text()`. -/
structure Document where
  tables : List (List (List (List Char)))
  items : List (List Char)
  allText : List Char

/-- `self.telecom_keywords` (main.py line 57). -/
def telecom_keywords : List (List Char) :=
  [lc "电信", lc "China Telecom", lc "CT", lc "telecom", lc "chntel"]

/-- Python substring containment `needle in hay`: `needle` occurs as a
contiguous run of `hay` (the empty string is contained in everything). -/
def containsSub (needle : List Char) : List Char → Bool
  | [] => needle.isEmpty
  | ch :: t => needle.isPrefixOf (ch :: t) || containsSub needle t

/-- `any(keyword.lower() in text.lower() for keyword in keywords)`:
case-insensitive substring test against the keyword list. -/
def containsKeyword (kws : List (List Char)) (text : List Char) : Bool :=
  kws.any (fun kw => containsSub (lowerStr kw) (lowerStr text))

/-- Body of the per-cell step of method 1 (main.py lines 195-199):
`ip = self.extract_ip(text); if ip and ip not in telecom_ips: append`. -/
def step1Cell (acc : List (List Char)) (text : List Char) : List (List Char) :=
  match extract_ip text with
  | some ip => if ip ∈ acc then acc else acc ++ [ip]
  | none => acc

/-- One table row in method 1 (main.py lines 186-199): if any cell text
contains a telecom keyword, run the per-cell extraction over all cells. -/
def step1Row (kws : List (List Char)) (acc : List (List Char))
    (cells : List (List Char)) : List (List Char) :=
  if cells.any (containsKeyword kws) then cells.foldl step1Cell acc else acc

/-- One list item in method 2 (main.py lines 202-209): if the item text
contains a keyword, extract its first valid token and append if new (the
same append logic as the per-cell step of method 1). -/
def step2Item (kws : List (List Char)) (acc : List (List Char))
    (text : List Char) : List (List Char) :=
  if containsKeyword kws text then step1Cell acc text else acc

/-- Methods 1 and 2 of `parse_telecom_ips` (main.py lines 170-209): fold
over all tables and their rows, then over all list items, starting from
the empty accumulator. -/
def strategies12 (kws : List (List Char)) (d : Document) : List (List Char) :=
  let ips1 := d.tables.foldl (fun acc rows => rows.foldl (step1Row kws) acc) []
  d.items.foldl (step2Item kws) ips1

/-- Append step of method 3 (main.py lines 217-219):
`if self.is_valid_ip(ip) and ip not in telecom_ips: append`. -/
def step3Add (acc : List (List Char)) (ip : List Char) : List (List Char) :=
  if is_valid_ip ip = true ∧ ip ∉ acc then acc ++ [ip] else acc

/-- Method 3 of `parse_telecom_ips` (main.py lines 211-221): only when
fewer than 5 addresses were collected so far, scan the whole document text
for IPv4-looking tokens and append the valid new ones. -/
def step3 (acc : List (List Char)) (allText : List Char) : List (List Char) :=
  if acc.length < 5 then (findAllIPs true allText).foldl step3Add acc else acc

/-! ## Curation -/

/-- Python string `<=`: lexicographic comparison by code point. -/
def lexLe : List Char → List Char → Bool
  | [], _ => true
  | _ :: _, [] => false
  | a :: as, b :: bs =>
    if a.toNat < b.toNat then true
    else if b.toNat < a.toNat then false
    else lexLe as bs

/-- Insert into a sorted list (helper for the model of `sorted`). -/
def insertLe (x : List Char) : List (List Char) → List (List Char)
  | [] => [x]
  | y :: ys => if lexLe x y then x :: y :: ys else y :: insertLe x ys

/-- Python `sorted` on a list of strings, modelled as insertion sort with
respect to `lexLe`. -/
def sortIPs : List (List Char) → List (List Char)
  | [] => []
  | x :: xs => insertLe x (sortIPs xs)

/-- `sorted(list(set(l)))` (main.py line 224, fetch_ip.py line 23):
deduplicate, then sort lexicographically. -/
def dedup_and_sort (l : List (List Char)) : List (List Char) :=
  sortIPs l.dedup

/-- `TelecomIPUpdater.parse_telecom_ips` (main.py lines 156-233): the three
extraction methods in order, then deduplication and sorting. -/
def parse_telecom_ips (kws : List (List Char)) (d : Document) : List (List Char) :=
  dedup_and_sort (step3 (strategies12 kws d) d.allText)

/-- `parse_telecom_ips` including its surrounding `try`/`except` (main.py
lines 159, 235-239): the whole body — all three methods — sits in a single
`try`; an exception raised anywhere in it (e.g. while traversing the table
structure in method 1) is caught and the function returns the empty list. -/
def parse_telecom_ips_try (kws : List (List Char)) (d : Document)
    (parseError : Bool) : List (List Char) :=
  if parseError then [] else parse_telecom_ips kws d

/-- `TelecomIPUpdater.save_ips_to_file` (main.py lines 290-317): the text
written to the output file (one address per line) and the return value,
which is `True` whenever no OS-level I/O error occurs (the only modelled
path). -/
def save_ips_to_file (ips : List (List Char)) : List Char × Bool :=
  (ips.foldl (fun s ip => s ++ ip ++ ['\n']) [], true)

/-- `TelecomIPUpdater.run` (main.py lines 329-370): fetch (`none` models a
fetch failure, which returns `False`), parse with the `try`/`except`
behaviour above, save, and return the save result. -/
def run (kws : List (List Char)) (fetched : Option Document)
    (parseError : Bool) : Bool :=
  match fetched with
  | none => false
  | some d => (save_ips_to_file (parse_telecom_ips_try kws d parseError)).2

/-! ## The second pipeline variant (fetch_ip.py) -/

/-- `fetch_telecom_ips` (fetch_ip.py lines 7-28), extraction part: over all
`tr` rows (given as lists of `td` cell texts), whenever there are at least
two cells and the first is exactly `"电信"`, append the second cell's text
verbatim; finally `sorted(set(...))`. -/
def fetch_telecom_ips (rows : List (List (List Char))) : List (List Char) :=
  let ips := rows.foldl (fun acc cols =>
    match cols with
    | line :: ip :: _ => if line = lc "电信" then acc ++ [ip] else acc
    | _ => acc) []
  dedup_and_sort ips

/-! ## Concrete test documents

`allText` is in each case `soup.get_text()` of the document: the text
nodes of the markup in order, separated by the whitespace of the markup. -/

/-- Scenario A document: one table with a `CarrierX` row and an unrelated
`OtherCarrier` row. -/
def docA : Document :=
  ⟨[[[lc "CarrierX", lc "1.2.3.4"], [lc "OtherCarrier", lc "5.6.7.8"]]],
   [], lc "CarrierX\n1.2.3.4\nOtherCarrier\n5.6.7.8\n"⟩

/-- Five matching rows; the first row's address cell holds two
IPv4-looking tokens. -/
def docMulti : Document :=
  ⟨[[[lc "CT", lc "1.2.3.4 2.2.2.2"], [lc "CT", lc "3.3.3.3"],
     [lc "CT", lc "4.4.4.4"], [lc "CT", lc "5.5.5.5"], [lc "CT", lc "6.6.6.6"]]],
   [], lc "CT\n1.2.3.4 2.2.2.2\nCT\n3.3.3.3\nCT\n4.4.4.4\nCT\n5.5.5.5\nCT\n6.6.6.6\n"⟩

/-- No tables; one labelled text block carrying an address. -/
def docItems : Document :=
  ⟨[], [lc "电信 9.9.9.9"], lc "电信 9.9.9.9"⟩

/-- No structural rows or labelled blocks at all; addresses only in the
raw text. -/
def docFallback : Document :=
  ⟨[], [], lc "CarrierX here 9.9.9.9 and 10.10.10.10"⟩

/-- A document whose candidate tokens all fail validation. -/
def docNone : Document :=
  ⟨[[[lc "电信", lc "hello"]]], [lc "telecom but no address"],
   lc "999.0.0.1 is not valid"⟩

/-- A matching row whose address token has a leading-zero octet. -/
def docZero : Document :=
  ⟨[[[lc "CT", lc "01.2.3.4"]]], [], lc "CT\n01.2.3.4\n"⟩

/-- A row with no carrier label; its first cell contains `ct` as an
accidental substring. -/
def docOctober : Document :=
  ⟨[[[lc "October", lc "8.8.8.8"]]], [], lc "October\n8.8.8.8\n"⟩
/-! ## General lemmas -/

theorem foldl_preserve {α β : Type} {P : α → Prop} {f : α → β → α}
    (hf : ∀ a b, P a → P (f a b)) :
    ∀ (l : List β) (a : α), P a → P (l.foldl f a)
  | [], _, ha => ha
  | b :: l, a, ha => foldl_preserve hf l (f a b) (hf a b ha)

theorem extract_ip_some {t x : List Char} (h : extract_ip t = some x) :
    searchIP t = some x ∧ is_valid_ip x = true := by
  cases hs : searchIP t with
  | none => simp [extract_ip, hs] at h
  | some m =>
    cases hv : is_valid_ip m with
    | false => simp [extract_ip, hs, hv] at h
    | true =>
      simp only [extract_ip, hs, hv, if_true, Option.some.injEq] at h
      subst h
      exact ⟨rfl, hv⟩

theorem searchIP_mem {t x : List Char} (h : searchIP t = some x) :
    x ∈ findAllIPs true t := by
  cases hl : findAllIPs true t with
  | nil => simp [searchIP, hl] at h
  | cons a l =>
    simp only [searchIP, hl, List.head?_cons, Option.some.injEq] at h
    subst h
    exact List.mem_cons_self a l

theorem extract_ip_none {t : List Char}
    (h : ∀ x ∈ findAllIPs true t, is_valid_ip x = false) :
    extract_ip t = none := by
  cases hs : searchIP t with
  | none => simp [extract_ip, hs]
  | some m =>
    have hm : m ∈ findAllIPs true t := searchIP_mem hs
    simp [extract_ip, hs, h m hm]

theorem step1Cell_mem {acc : List (List Char)} {t x : List Char}
    (h : x ∈ step1Cell acc t) : x ∈ acc ∨ extract_ip t = some x := by
  cases he : extract_ip t with
  | none =>
    simp only [step1Cell, he] at h
    exact Or.inl h
  | some ip =>
    simp only [step1Cell, he] at h
    by_cases hmem : ip ∈ acc
    · rw [if_pos hmem] at h; exact Or.inl h
    · rw [if_neg hmem] at h
      rcases List.mem_append.mp h with h1 | h1
      · exact Or.inl h1
      · rw [List.mem_singleton.mp h1]
        exact Or.inr rfl

theorem step1Cell_valid {acc : List (List Char)} {t : List Char}
    (hacc : ∀ y ∈ acc, is_valid_ip y = true) :
    ∀ y ∈ step1Cell acc t, is_valid_ip y = true := by
  intro y hy
  rcases step1Cell_mem hy with h | h
  · exact hacc y h
  · exact (extract_ip_some h).2

theorem cellsFold_mem :
    ∀ (cells : List (List Char)) (acc : List (List Char)) (x : List Char),
      x ∈ cells.foldl step1Cell acc →
      x ∈ acc ∨ ∃ t ∈ cells, extract_ip t = some x := by
  intro cells
  induction cells with
  | nil => intro acc x h; exact Or.inl h
  | cons t ts ih =>
    intro acc x h
    rw [List.foldl_cons] at h
    rcases ih (step1Cell acc t) x h with h1 | ⟨u, hu, he⟩
    · rcases step1Cell_mem h1 with h2 | h2
      · exact Or.inl h2
      · exact Or.inr ⟨t, List.mem_cons_self t ts, h2⟩
    · exact Or.inr ⟨u, List.mem_cons_of_mem t hu, he⟩

theorem step1Row_valid {kws acc : List (List Char)} {cells : List (List Char)}
    (hacc : ∀ y ∈ acc, is_valid_ip y = true) :
    ∀ y ∈ step1Row kws acc cells, is_valid_ip y = true := by
  unfold step1Row
  split
  · exact foldl_preserve (P := fun a => ∀ y ∈ a, is_valid_ip y = true)
      (fun a t ha => step1Cell_valid ha) cells acc hacc
  · exact hacc

theorem step2Item_valid {kws acc : List (List Char)} {text : List Char}
    (hacc : ∀ y ∈ acc, is_valid_ip y = true) :
    ∀ y ∈ step2Item kws acc text, is_valid_ip y = true := by
  unfold step2Item
  split
  · exact step1Cell_valid hacc
  · exact hacc

theorem strategies12_valid (kws : List (List Char)) (d : Document) :
    ∀ y ∈ strategies12 kws d, is_valid_ip y = true := by
  have h1 : ∀ y ∈ d.tables.foldl (fun acc rows => rows.foldl (step1Row kws) acc) [],
      is_valid_ip y = true := by
    apply foldl_preserve (P := fun a => ∀ y ∈ a, is_valid_ip y = true)
    · intro a rows ha
      exact foldl_preserve (P := fun a2 => ∀ y ∈ a2, is_valid_ip y = true)
        (fun a2 cells ha2 => step1Row_valid ha2) rows a ha
    · intro y hy
      exact absurd hy (List.not_mem_nil y)
  exact foldl_preserve (P := fun a => ∀ y ∈ a, is_valid_ip y = true)
    (fun a t ha => step2Item_valid ha) d.items _ h1

theorem step3Add_mem {acc : List (List Char)} {ip x : List Char}
    (h : x ∈ step3Add acc ip) : x ∈ acc ∨ (x = ip ∧ is_valid_ip ip = true) := by
  unfold step3Add at h
  split at h
  case isTrue hc =>
    rcases List.mem_append.mp h with h1 | h1
    · exact Or.inl h1
    · exact Or.inr ⟨List.mem_singleton.mp h1, hc.1⟩
  case isFalse => exact Or.inl h

theorem step3Add_mono {acc : List (List Char)} {ip x : List Char}
    (h : x ∈ acc) : x ∈ step3Add acc ip := by
  unfold step3Add
  split
  · exact List.mem_append.mpr (Or.inl h)
  · exact h

theorem fold3_mono :
    ∀ (l : List (List Char)) (acc : List (List Char)) (x : List Char),
      x ∈ acc → x ∈ l.foldl step3Add acc := by
  intro l
  induction l with
  | nil => intro acc x h; exact h
  | cons ip ips ih =>
    intro acc x h
    rw [List.foldl_cons]
    exact ih (step3Add acc ip) x (step3Add_mono h)

theorem fold3_collect :
    ∀ (l : List (List Char)) (acc : List (List Char)) (x : List Char),
      x ∈ l → is_valid_ip x = true → x ∈ l.foldl step3Add acc := by
  intro l
  induction l with
  | nil => intro acc x h; exact absurd h (List.not_mem_nil x)
  | cons ip ips ih =>
    intro acc x h hv
    rw [List.foldl_cons]
    rcases List.mem_cons.mp h with rfl | h1
    · apply fold3_mono
      unfold step3Add
      split
      case isTrue => exact List.mem_append.mpr (Or.inr (List.mem_singleton.mpr rfl))
      case isFalse hc =>
        rcases Decidable.not_and_iff_or_not.mp hc with h2 | h2
        · exact absurd hv h2
        · exact Decidable.not_not.mp h2
    · exact ih (step3Add acc ip) x h1 hv

theorem fold3_valid {l acc : List (List Char)}
    (hacc : ∀ y ∈ acc, is_valid_ip y = true) :
    ∀ y ∈ l.foldl step3Add acc, is_valid_ip y = true := by
  apply foldl_preserve (P := fun a => ∀ y ∈ a, is_valid_ip y = true) ?_ l acc hacc
  intro a ip ha y hy
  rcases step3Add_mem hy with h | ⟨rfl, h⟩
  · exact ha y h
  · exact h

theorem step3_eq_of_ge {acc : List (List Char)} {txt : List Char}
    (h : ¬ acc.length < 5) : step3 acc txt = acc := by
  unfold step3
  rw [if_neg h]

theorem step3_collect {acc : List (List Char)} {txt x : List Char}
    (h : acc.length < 5) (hx : x ∈ findAllIPs true txt)
    (hv : is_valid_ip x = true) : x ∈ step3 acc txt := by
  unfold step3
  rw [if_pos h]
  exact fold3_collect _ acc x hx hv

theorem step3_valid {acc : List (List Char)} {txt : List Char}
    (hacc : ∀ y ∈ acc, is_valid_ip y = true) :
    ∀ y ∈ step3 acc txt, is_valid_ip y = true := by
  unfold step3
  split
  · exact fold3_valid hacc
  · exact hacc

theorem lexLe_cons_iff {x y : Char} {xs ys : List Char} :
    lexLe (x :: xs) (y :: ys) = true ↔
      x.toNat < y.toNat ∨ (x.toNat = y.toNat ∧ lexLe xs ys = true) := by
  simp only [lexLe]
  rcases Nat.lt_trichotomy x.toNat y.toNat with h | h | h
  · simp [h, Nat.lt_asymm h]
  · simp [h, Nat.lt_irrefl]
  · simp [Nat.lt_asymm h, h, ne_of_gt h]

theorem lexLe_total : ∀ a b : List Char, lexLe a b = true ∨ lexLe b a = true := by
  intro a
  induction a with
  | nil => intro b; exact Or.inl rfl
  | cons x xs ih =>
    intro b
    cases b with
    | nil => exact Or.inr rfl
    | cons y ys =>
      rcases Nat.lt_trichotomy x.toNat y.toNat with h | h | h
      · exact Or.inl (lexLe_cons_iff.mpr (Or.inl h))
      · rcases ih ys with h2 | h2
        · exact Or.inl (lexLe_cons_iff.mpr (Or.inr ⟨h, h2⟩))
        · exact Or.inr (lexLe_cons_iff.mpr (Or.inr ⟨h.symm, h2⟩))
      · exact Or.inr (lexLe_cons_iff.mpr (Or.inl h))

theorem lexLe_trans : ∀ a b c : List Char,
    lexLe a b = true → lexLe b c = true → lexLe a c = true := by
  intro a
  induction a with
  | nil => intro b c _ _; rfl
  | cons x xs ih =>
    intro b c hab hbc
    cases b with
    | nil => exact absurd hab (by simp [lexLe])
    | cons y ys =>
      cases c with
      | nil => exact absurd hbc (by simp [lexLe])
      | cons z zs =>
        rcases lexLe_cons_iff.mp hab with h1 | ⟨h1, h1r⟩ <;>
          rcases lexLe_cons_iff.mp hbc with h2 | ⟨h2, h2r⟩
        · exact lexLe_cons_iff.mpr (Or.inl (Nat.lt_trans h1 h2))
        · exact lexLe_cons_iff.mpr (Or.inl (h2 ▸ h1))
        · exact lexLe_cons_iff.mpr (Or.inl (h1 ▸ h2))
        · exact lexLe_cons_iff.mpr (Or.inr ⟨h1.trans h2, ih ys zs h1r h2r⟩)

theorem insertLe_perm (x : List Char) :
    ∀ l : List (List Char), (insertLe x l).Perm (x :: l) := by
  intro l
  induction l with
  | nil => exact List.Perm.refl _
  | cons y ys ih =>
    unfold insertLe
    split
    · exact List.Perm.refl _
    · exact (List.Perm.cons y ih).trans (List.Perm.swap x y ys)

theorem sortIPs_perm : ∀ l : List (List Char), (sortIPs l).Perm l := by
  intro l
  induction l with
  | nil => exact List.Perm.refl _
  | cons x xs ih => exact (insertLe_perm x (sortIPs xs)).trans (List.Perm.cons x ih)

theorem mem_sortIPs {x : List Char} {l : List (List Char)} :
    x ∈ sortIPs l ↔ x ∈ l :=
  (sortIPs_perm l).mem_iff

theorem insertLe_sorted {x : List Char} {l : List (List Char)}
    (hl : l.Pairwise (fun a b => lexLe a b = true)) :
    (insertLe x l).Pairwise (fun a b => lexLe a b = true) := by
  induction l with
  | nil => simp [insertLe]
  | cons y ys ih =>
    rw [List.pairwise_cons] at hl
    obtain ⟨hy, hys⟩ := hl
    unfold insertLe
    by_cases hxy : lexLe x y = true
    · rw [if_pos hxy]
      refine List.pairwise_cons.mpr ⟨?_, List.pairwise_cons.mpr ⟨hy, hys⟩⟩
      intro z hz
      rcases List.mem_cons.mp hz with rfl | hz2
      · exact hxy
      · exact lexLe_trans x y z hxy (hy z hz2)
    · rw [if_neg hxy]
      have hyx : lexLe y x = true := (lexLe_total x y).resolve_left hxy
      refine List.pairwise_cons.mpr ⟨?_, ih hys⟩
      intro z hz
      rcases List.mem_cons.mp ((insertLe_perm x ys).mem_iff.mp hz) with rfl | hz2
      · exact hyx
      · exact hy z hz2

theorem sortIPs_sorted (l : List (List Char)) :
    (sortIPs l).Pairwise (fun a b => lexLe a b = true) := by
  induction l with
  | nil => exact List.Pairwise.nil
  | cons x xs ih => exact insertLe_sorted ih

theorem sortIPs_eq_of_sorted : ∀ {l : List (List Char)},
    l.Pairwise (fun a b => lexLe a b = true) → sortIPs l = l := by
  intro l
  induction l with
  | nil => intro _; rfl
  | cons x xs ih =>
    intro h
    rw [List.pairwise_cons] at h
    obtain ⟨hx, hxs⟩ := h
    show insertLe x (sortIPs xs) = x :: xs
    rw [ih hxs]
    cases xs with
    | nil => rfl
    | cons y ys =>
      unfold insertLe
      rw [if_pos (hx y (List.mem_cons_self y ys))]

theorem dedup_and_sort_nodup (l : List (List Char)) : (dedup_and_sort l).Nodup :=
  ((sortIPs_perm l.dedup).nodup_iff).mpr l.nodup_dedup

theorem dedup_and_sort_idem (l : List (List Char)) :
    dedup_and_sort (dedup_and_sort l) = dedup_and_sort l := by
  unfold dedup_and_sort
  rw [List.dedup_eq_self.mpr (show (sortIPs l.dedup).Nodup from dedup_and_sort_nodup l)]
  exact sortIPs_eq_of_sorted (sortIPs_sorted l.dedup)

theorem mem_dedup_and_sort {x : List Char} {l : List (List Char)} :
    x ∈ dedup_and_sort l ↔ x ∈ l := by
  unfold dedup_and_sort
  rw [(sortIPs_perm l.dedup).mem_iff, List.mem_dedup]

theorem foldl_id {α β : Type} {f : α → β → α} :
    ∀ (l : List β) (a : α), (∀ x ∈ l, ∀ a2, f a2 x = a2) → l.foldl f a = a := by
  intro l
  induction l with
  | nil => intro a _; rfl
  | cons b bs ih =>
    intro a h
    rw [List.foldl_cons, h b (List.mem_cons_self b bs) a]
    exact ih a (fun x hx a2 => h x (List.mem_cons_of_mem b hx) a2)

theorem step1Cell_none {acc : List (List Char)} {t : List Char}
    (h : extract_ip t = none) : step1Cell acc t = acc := by
  simp [step1Cell, h]

theorem cellsFold_eq : ∀ {cells : List (List Char)} (acc : List (List Char)),
    (∀ t ∈ cells, extract_ip t = none) → cells.foldl step1Cell acc = acc := by
  intro cells
  induction cells with
  | nil => intro acc _; rfl
  | cons t ts ih =>
    intro acc h
    rw [List.foldl_cons, step1Cell_none (h t (List.mem_cons_self t ts))]
    exact ih acc (fun u hu => h u (List.mem_cons_of_mem t hu))

theorem step1Row_eq {kws acc : List (List Char)} {cells : List (List Char)}
    (h : ∀ t ∈ cells, extract_ip t = none) : step1Row kws acc cells = acc := by
  unfold step1Row
  split
  · exact cellsFold_eq acc h
  · rfl

theorem step2Item_eq {kws acc : List (List Char)} {text : List Char}
    (h : extract_ip text = none) : step2Item kws acc text = acc := by
  unfold step2Item
  split
  · exact step1Cell_none h
  · rfl

theorem strategies12_empty {kws : List (List Char)} {d : Document}
    (hcells : ∀ table ∈ d.tables, ∀ row ∈ table, ∀ cell ∈ row, extract_ip cell = none)
    (hitems : ∀ t ∈ d.items, extract_ip t = none) :
    strategies12 kws d = [] := by
  show d.items.foldl (step2Item kws)
      (d.tables.foldl (fun acc rows => rows.foldl (step1Row kws) acc) []) = []
  rw [foldl_id d.tables []
      (fun table htable a2 => foldl_id table a2
        (fun row hrow a3 => step1Row_eq (hcells table htable row hrow)))]
  exact foldl_id d.items [] (fun t ht a2 => step2Item_eq (hitems t ht))

theorem fold3_eq : ∀ {l : List (List Char)} (acc : List (List Char)),
    (∀ x ∈ l, is_valid_ip x = false) → l.foldl step3Add acc = acc := by
  intro l
  induction l with
  | nil => intro acc _; rfl
  | cons ip ips ih =>
    intro acc h
    have hstep : step3Add acc ip = acc := by
      unfold step3Add
      rw [if_neg]
      intro hc
      exact absurd hc.1 (by simp [h ip (List.mem_cons_self ip ips)])
    rw [List.foldl_cons, hstep]
    exact ih acc (fun x hx => h x (List.mem_cons_of_mem ip hx))

/-! ## Claims -/

/-- C1 counterexample: the validator accepts the token `"0127.0.0.1"`,
whose four decimal components read `127, 0, 0, 1` — the address it
denotes lies in `127.0.0.0/8`, so acceptance contradicts the claimed
loopback exclusion.  The exclusions are literal string-prefix tests and
the leading-zero spelling evades them. -/
theorem is_valid_ip_accepts_loopback_spelling :
    is_valid_ip (lc "0127.0.0.1") = true ∧
    ((splitOnDot (lc "0127.0.0.1")).map digitsToNat).head? = some 127 := by
  decide

/-- C1 (amended): every token accepted by `is_valid_ip` has exactly four
dot-separated decimal components, each with value in `[0, 255]`, and the
token does not start with the literal prefixes `"0."`, `"127."`,
`"169.254."` and is not the literal string `"255.255.255.255"`. -/
theorem is_valid_ip_characterization (t : List Char) (h : is_valid_ip t = true) :
    (splitOnDot t).length = 4 ∧
    (∀ p ∈ splitOnDot t, pyIsDigit p = true ∧ digitsToNat p ≤ 255) ∧
    (lc "0.").isPrefixOf t = false ∧
    (lc "127.").isPrefixOf t = false ∧
    (lc "169.254.").isPrefixOf t = false ∧
    t ≠ lc "255.255.255.255" := by
  simp only [is_valid_ip] at h
  split at h
  case isFalse => exact absurd h (by simp)
  case isTrue h4 =>
    split at h
    case isFalse => exact absurd h (by simp)
    case isTrue hall =>
      split at h
      case isTrue => exact absurd h (by simp)
      case isFalse hpfx =>
        split at h
        case isTrue => exact absurd h (by simp)
        case isFalse hbr =>
          simp only [Bool.or_eq_true, not_or, Bool.not_eq_true] at hpfx
          refine ⟨h4, ?_, hpfx.1.1, hpfx.1.2, hpfx.2, hbr⟩
          intro p hp
          have hpart := List.all_eq_true.mp hall p hp
          rw [Bool.and_eq_true] at hpart
          exact ⟨hpart.1, of_decide_eq_true hpart.2⟩

/-- C1 witness: the characterization applied to the accepted token
`"1.2.3.4"`. -/
theorem is_valid_ip_characterization_witness :
    (splitOnDot (lc "1.2.3.4")).length = 4 ∧
    (∀ p ∈ splitOnDot (lc "1.2.3.4"), pyIsDigit p = true ∧ digitsToNat p ≤ 255) ∧
    (lc "0.").isPrefixOf (lc "1.2.3.4") = false ∧
    (lc "127.").isPrefixOf (lc "1.2.3.4") = false ∧
    (lc "169.254.").isPrefixOf (lc "1.2.3.4") = false ∧
    lc "1.2.3.4" ≠ lc "255.255.255.255" :=
  is_valid_ip_characterization (lc "1.2.3.4") (by decide)

/-- C2 counterexample: `fetch_telecom_ips` applies no validation at all;
with a row whose first column is `"电信"` and whose second column is the
non-address text `"not an ip"`, its curated output contains that text,
which is not a valid IPv4 address. -/
theorem fetch_telecom_ips_no_validation :
    fetch_telecom_ips [[lc "电信", lc "not an ip"]] = [lc "not an ip"] ∧
    is_valid_ip (lc "not an ip") = false := by
  decide

/-- C2 (amended): in the `main.py` pipeline every address in the curated
output of `parse_telecom_ips` passes `is_valid_ip` (syntactically valid and
not excluded); the `fetch_ip.py` variant copies cell text verbatim without
validation. -/
theorem parse_telecom_ips_all_valid (kws : List (List Char)) (d : Document)
    (x : List Char) (h : x ∈ parse_telecom_ips kws d) : is_valid_ip x = true := by
  have h2 := mem_dedup_and_sort.mp
    (show x ∈ dedup_and_sort (step3 (strategies12 kws d) d.allText) from h)
  exact step3_valid (strategies12_valid kws d) x h2

/-- C2 witness: the validity theorem applied to the output address
`"8.8.8.8"` of a concrete document. -/
theorem parse_telecom_ips_all_valid_witness : is_valid_ip (lc "8.8.8.8") = true :=
  parse_telecom_ips_all_valid telecom_keywords docOctober (lc "8.8.8.8") (by decide)

/-- C3 counterexample: on the Scenario A document the curated output is
not `["1.2.3.4"]` — only one address is found by strategies 1-2, so the
full-document fallback also runs and picks up the unrelated row's
address. -/
theorem scenarioA_output_ne :
    parse_telecom_ips [lc "CarrierX"] docA ≠ [lc "1.2.3.4"] := by
  decide

/-- C3 (amended): on the Scenario A document the curated output is
`["1.2.3.4", "5.6.7.8"]`: the matching row's address is present, but the
non-matching row's address is also included via the full-document
fallback (strategies 1-2 yielded one address, below the threshold 5). -/
theorem scenarioA_output_eq :
    parse_telecom_ips [lc "CarrierX"] docA = [lc "1.2.3.4", lc "5.6.7.8"] := by
  decide

/-- C4 counterexample: with a parse error during strategy 1, the whole
extraction returns the empty list even though strategy 2 would have found
`"9.9.9.9"` in the labelled text block — the later strategies' candidates
do not appear in the output. -/
theorem strategy1_failure_drops_candidates :
    parse_telecom_ips_try telecom_keywords docItems true = [] ∧
    parse_telecom_ips telecom_keywords docItems = [lc "9.9.9.9"] := by
  decide

/-- C4 (amended): an exception during strategy 1 is caught by the single
`try`/`except` wrapping all of `parse_telecom_ips`, which then returns the
empty list — the later strategies do not run, but the run as a whole does
not abort: it saves the empty list and still returns `True`. -/
theorem strategy1_failure_empty_run_ok (kws : List (List Char)) (d : Document) :
    parse_telecom_ips_try kws d true = [] ∧ run kws (some d) true = true :=
  ⟨rfl, rfl⟩

/-- C5 counterexample: the cell `"1.2.3.4 2.2.2.2"` of the matching first
row of `docMulti` contains two IPv4-looking tokens, and `"2.2.2.2"` is
valid, yet it is absent from the curated output (strategies 1-2 collected
five addresses, so the fallback does not run and the cell's second token
is lost). -/
theorem matching_row_second_token_lost :
    findAllIPs true (lc "1.2.3.4 2.2.2.2") = [lc "1.2.3.4", lc "2.2.2.2"] ∧
    is_valid_ip (lc "2.2.2.2") = true ∧
    parse_telecom_ips telecom_keywords docMulti =
      [lc "1.2.3.4", lc "3.3.3.3", lc "4.4.4.4", lc "5.5.5.5", lc "6.6.6.6"] ∧
    lc "2.2.2.2" ∉ parse_telecom_ips telecom_keywords docMulti := by
  decide

/-- C5 (amended): from each cell of a matching row, strategy 1 collects at
most one token — the cell's first IPv4-looking token, and only when it is
valid; every address the row contributes is the first token of one of its
cells. -/
theorem step1Row_first_token_only (kws acc cells : List (List Char))
    (x : List Char) (h : x ∈ step1Row kws acc cells) :
    x ∈ acc ∨ ∃ t ∈ cells, searchIP t = some x ∧ is_valid_ip x = true := by
  unfold step1Row at h
  split at h
  case isTrue =>
    rcases cellsFold_mem cells acc x h with h1 | ⟨t, ht, he⟩
    · exact Or.inl h1
    · exact Or.inr ⟨t, ht, extract_ip_some he⟩
  case isFalse => exact Or.inl h

/-- C5 witness: on the matching row `["CT", "1.2.3.4 2.2.2.2"]` the
collected address `"1.2.3.4"` is the first token of the second cell. -/
theorem step1Row_first_token_only_witness :
    lc "1.2.3.4" ∈ ([] : List (List Char)) ∨
      ∃ t ∈ [lc "CT", lc "1.2.3.4 2.2.2.2"],
        searchIP t = some (lc "1.2.3.4") ∧ is_valid_ip (lc "1.2.3.4") = true :=
  step1Row_first_token_only telecom_keywords [] [lc "CT", lc "1.2.3.4 2.2.2.2"]
    (lc "1.2.3.4") (by decide)

/-- C6: the full-document fallback is governed exactly by the threshold 5
on the number of addresses collected by strategies 1-2.  With at least 5,
the output is precisely the curated strategies-1-2 result (no unlabeled
address is added); with fewer than 5, every valid IPv4-looking token of
the whole document text appears in the output. -/
theorem fallback_threshold_spec (kws : List (List Char)) (d : Document) :
    (5 ≤ (strategies12 kws d).length →
      parse_telecom_ips kws d = dedup_and_sort (strategies12 kws d)) ∧
    ((strategies12 kws d).length < 5 →
      ∀ x ∈ findAllIPs true d.allText, is_valid_ip x = true →
        x ∈ parse_telecom_ips kws d) := by
  constructor
  · intro h5
    show dedup_and_sort (step3 (strategies12 kws d) d.allText) = _
    rw [step3_eq_of_ge (Nat.not_lt.mpr h5)]
  · intro h5 x hx hv
    show x ∈ dedup_and_sort (step3 (strategies12 kws d) d.allText)
    exact mem_dedup_and_sort.mpr (step3_collect h5 hx hv)

/-- C6 witness: on `docMulti` strategies 1-2 reach the threshold and the
output is exactly their curated result; on `docFallback` they yield
nothing, and the fallback brings the raw-text token `"9.9.9.9"` into the
output. -/
theorem fallback_threshold_spec_witness :
    parse_telecom_ips telecom_keywords docMulti =
      dedup_and_sort (strategies12 telecom_keywords docMulti) ∧
    lc "9.9.9.9" ∈ parse_telecom_ips telecom_keywords docFallback :=
  ⟨(fallback_threshold_spec telecom_keywords docMulti).1 (by decide),
   (fallback_threshold_spec telecom_keywords docFallback).2 (by decide)
     (lc "9.9.9.9") (by decide) (by decide)⟩

/-- C7: both curated outputs are duplicate-free, and the curation step
`sorted(list(set(...)))` is idempotent on its own output, for
`parse_telecom_ips` (main.py) and `fetch_telecom_ips` (fetch_ip.py)
alike. -/
theorem curated_nodup_idempotent (kws : List (List Char)) (d : Document)
    (rows : List (List (List Char))) :
    (parse_telecom_ips kws d).Nodup ∧
    dedup_and_sort (parse_telecom_ips kws d) = parse_telecom_ips kws d ∧
    (fetch_telecom_ips rows).Nodup ∧
    dedup_and_sort (fetch_telecom_ips rows) = fetch_telecom_ips rows :=
  ⟨dedup_and_sort_nodup _, dedup_and_sort_idem _,
   dedup_and_sort_nodup _, dedup_and_sort_idem _⟩

/-- C8: when every candidate token of the document fails validation, the
pipeline produces the empty curated list and completes successfully:
`parse_telecom_ips` returns `[]`, `save_ips_to_file` returns `True`, and
`run` returns `True` — an empty result is never an error. -/
theorem empty_result_success (kws : List (List Char)) (d : Document)
    (hcells : ∀ table ∈ d.tables, ∀ row ∈ table, ∀ cell ∈ row,
      ∀ x ∈ findAllIPs true cell, is_valid_ip x = false)
    (hitems : ∀ t ∈ d.items, ∀ x ∈ findAllIPs true t, is_valid_ip x = false)
    (hall : ∀ x ∈ findAllIPs true d.allText, is_valid_ip x = false) :
    parse_telecom_ips kws d = [] ∧
    (save_ips_to_file (parse_telecom_ips kws d)).2 = true ∧
    run kws (some d) false = true := by
  have hs : strategies12 kws d = [] :=
    strategies12_empty
      (fun table ht row hr cell hc => extract_ip_none (hcells table ht row hr cell hc))
      (fun t ht => extract_ip_none (hitems t ht))
  have hp : parse_telecom_ips kws d = [] := by
    show dedup_and_sort (step3 (strategies12 kws d) d.allText) = []
    rw [hs]
    unfold step3
    rw [if_pos (by norm_num : ([] : List (List Char)).length < 5), fold3_eq [] hall]
    rfl
  exact ⟨hp, rfl, rfl⟩

/-- C8 witness: a concrete document whose only tokens (`"999.0.0.1"` in
the raw text, none in the labelled cells and items) all fail validation;
the pipeline returns the empty list and the run succeeds. -/
theorem empty_result_success_witness :
    parse_telecom_ips telecom_keywords docNone = [] ∧
    (save_ips_to_file (parse_telecom_ips telecom_keywords docNone)).2 = true ∧
    run telecom_keywords (some docNone) false = true :=
  empty_result_success telecom_keywords docNone (by decide) (by decide) (by decide)

/-- C9 counterexample: the non-canonical token `"01.2.3.4"` (leading-zero
first octet, denoting the same address as the canonical `"1.2.3.4"`) is
accepted by the validator and appears verbatim in the curated output —
it is neither rejected nor rewritten to canonical form. -/
theorem leading_zero_token_output_verbatim :
    is_valid_ip (lc "01.2.3.4") = true ∧
    parse_telecom_ips telecom_keywords docZero = [lc "01.2.3.4"] ∧
    lc "01.2.3.4" ≠ lc "1.2.3.4" ∧
    (splitOnDot (lc "01.2.3.4")).map digitsToNat = [1, 2, 3, 4] := by
  decide

/-- C9 (amended): validation never rewrites a token — every extracted
address is one of the raw scanned tokens of its text, emitted verbatim;
in particular the leading-zero token `"01.2.3.4"` flows through to the
output as-is. -/
theorem extraction_verbatim :
    (∀ t x : List Char, extract_ip t = some x → x ∈ findAllIPs true t) ∧
    parse_telecom_ips telecom_keywords docZero = [lc "01.2.3.4"] :=
  ⟨fun t x h => searchIP_mem (extract_ip_some h).1, by decide⟩

/-- C9 witness: the verbatim property at the concrete text
`"01.2.3.4"`. -/
theorem extraction_verbatim_witness :
    lc "01.2.3.4" ∈ findAllIPs true (lc "01.2.3.4") :=
  extraction_verbatim.1 (lc "01.2.3.4") (lc "01.2.3.4") (by decide)

/-- C10: carrier detection is a case-insensitive substring test, so the
row `["October", "8.8.8.8"]` — whose cells contain no keyword verbatim —
is classified as a telecom row (the keyword `"CT"` occurs inside
`"October"` after lowercasing) and its address reaches the curated
output. -/
theorem october_row_matched :
    telecom_keywords.all (fun kw => !(containsSub kw (lc "October"))) = true ∧
    containsKeyword telecom_keywords (lc "October") = true ∧
    parse_telecom_ips telecom_keywords docOctober = [lc "8.8.8.8"] := by
  decide
